import Mathlib

/-!
Shallow embedding of the whatsappbot repository's core components and proofs
about them.

The embedding follows the JavaScript source:
  * `RateLimiter` (rate limiter module, second half of `src/alerts.js`):
    sliding-window admission control (`canSend`), bookkeeping (`recordSent`),
    the retry queue (`queueMessage`) and its periodic drain (`processQueue`).
  * `OneTimeScheduler` (`src/one-time-scheduler.js`): the pending-set
    partition (`checkPendingMessages`) and per-job delivery
    (`sendOneTimeMessage`).
  * `Scheduler` (`src/unnamed/part_000`, second class definition):
    cron-job registration (`addSchedule` / `removeSchedule`) and the batch
    delivery loop (`executeSchedule`).
  * `BrowserManager` (`src/browserManager.js`): `restartBrowser` with
    exponential backoff.

JavaScript timestamps (`Date.now()`) are integers of milliseconds and are
modelled as `Int`.  Within one synchronous stretch of JavaScript code the
successive `Date.now()` reads are modelled as one constant `now`.  A stored
send closure is modelled by the boolean outcome of invoking it (`sendOk`:
`true` = resolves, `false` = throws); JavaScript object identity of queue
entries is modelled by a numeric `id` field.
-/

namespace WhatsappBot

/-- A sample in a sliding rate window, `{timestamp, count}` as pushed by
`RateLimiter.recordSent` (`this.globalHistory.push({ timestamp: now, count: 1 })`). -/
structure Sample where
  timestamp : Int
  count : Int
deriving Repr, DecidableEq

/-- The `config.rateLimit` section of `config.js`. -/
structure RateConfig where
  messagesPerMinute : Int
  messagesPerHour : Int
  perRecipientLimit : Int
deriving Repr, DecidableEq

/-- An entry of the retry queue as pushed by `RateLimiter.queueMessage`:
`{recipient, message, sendFn, addedAt, waitTime}`.  The stored closure
`sendFn` is modelled by `sendOk` (whether invoking it succeeds) and the
entry's object identity by `id`. -/
structure QueuedItem where
  id : Nat
  recipient : Option String
  message : String
  sendOk : Bool
  addedAt : Int
  waitTime : Int
deriving Repr, DecidableEq

/-- The mutable fields of the `RateLimiter` class:
`messageHistory` (a `Map` from phone to samples, in insertion order),
`globalHistory`, and `queuedMessages`. -/
structure RLState where
  messageHistory : List (String × List Sample)
  globalHistory : List Sample
  queuedMessages : List QueuedItem
deriving Repr, DecidableEq

/-- `Map.has` on the insertion-ordered association list. -/
def mapHas (m : List (String × List Sample)) (k : String) : Bool :=
  m.any (fun e => e.1 = k)

/-- `Map.get` on the insertion-ordered association list (`[]` when absent,
matching the code paths that only read a key after inserting `[]`). -/
def mapGet (m : List (String × List Sample)) (k : String) : List Sample :=
  match m.find? (fun e => e.1 = k) with
  | some e => e.2
  | none => []

/-- `Map.set`: updates the first entry with the key in place, or appends a
new entry (JavaScript `Map` preserves insertion order). -/
def mapSet (m : List (String × List Sample)) (k : String) (v : List Sample) :
    List (String × List Sample) :=
  match m with
  | [] => [(k, v)]
  | e :: rest => if e.1 = k then (k, v) :: rest else e :: mapSet rest k v

/-- `Math.ceil(a / b)` for integer `a` and positive integer `b` (exact in
JavaScript doubles at the magnitudes used here).  `Int./` is Euclidean
division, which floors for a positive divisor, so `-((-a) / b)` is the
ceiling. -/
def mathCeilDiv (a b : Int) : Int :=
  -((-a) / b)

/-- `list.reduce((sum, entry) => sum + entry.count, 0)`. -/
def sumCounts (l : List Sample) : Int :=
  l.foldl (fun sum e => sum + e.count) 0

/-- Result of `RateLimiter.canSend`:
`{allowed: true}` or `{allowed: false, reason, waitTime}`. -/
inductive CanSendResult where
  | allow : CanSendResult
  | deny (reason : String) (waitTime : Int) : CanSendResult
deriving Repr, DecidableEq

/-- `RateLimiter.canSend(recipient)`.  Returns the decision together with the
mutated state: the global history is destructively pruned to the last minute
(`this.globalHistory = this.globalHistory.filter(...)`), and an absent
recipient key is inserted with `[]`.  `recipient = none` models calling
`canSend()` with no / a falsy recipient. -/
def canSend (cfg : RateConfig) (s : RLState) (recipient : Option String) (now : Int) :
    CanSendResult × RLState :=
  let oneMinuteAgo := now - 60000
  let oneHourAgo := now - 3600000
  -- this.globalHistory = this.globalHistory.filter(entry => entry.timestamp > oneMinuteAgo)
  let globalHistory := s.globalHistory.filter (fun e => oneMinuteAgo < e.timestamp)
  let s1 : RLState := { s with globalHistory := globalHistory }
  let recentGlobalCount := sumCounts globalHistory
  if cfg.messagesPerMinute ≤ recentGlobalCount then
    let waitTime :=
      match globalHistory.head? with
      | some oldest => 60000 - (now - oldest.timestamp)
      | none => 60000
    (.deny "Global per-minute limit exceeded" (mathCeilDiv waitTime 1000), s1)
  else
    -- const hourHistory = this.globalHistory.filter(entry => entry.timestamp > oneHourAgo)
    let hourHistory := globalHistory.filter (fun e => oneHourAgo < e.timestamp)
    let hourCount := sumCounts hourHistory
    if cfg.messagesPerHour ≤ hourCount then
      let waitTime :=
        match hourHistory.head? with
        | some oldest => 3600000 - (now - oldest.timestamp)
        | none => 3600000
      (.deny "Global per-hour limit exceeded" (mathCeilDiv waitTime 1000), s1)
    else
      match recipient with
      | none => (.allow, s1)
      | some r =>
        let s2 : RLState :=
          if mapHas s1.messageHistory r then s1
          else { s1 with messageHistory := mapSet s1.messageHistory r [] }
        let recipientHistory := mapGet s2.messageHistory r
        let recentRecipientCount :=
          sumCounts (recipientHistory.filter (fun e => oneMinuteAgo < e.timestamp))
        if cfg.perRecipientLimit ≤ recentRecipientCount then
          let waitTime :=
            match recipientHistory.find? (fun e => oneMinuteAgo < e.timestamp) with
            | some oldest => 60000 - (now - oldest.timestamp)
            | none => 60000
          (.deny "Per-recipient limit exceeded" (mathCeilDiv waitTime 1000), s2)
        else
          (.allow, s2)

/-- `RateLimiter.recordSent(recipient)`: appends a unit sample to the global
history and (when a recipient is given) to that recipient's history, then
prunes all histories to the last hour, deleting recipient keys whose history
becomes empty. -/
def recordSent (s : RLState) (recipient : Option String) (now : Int) : RLState :=
  let s1 : RLState := { s with globalHistory := s.globalHistory ++ [⟨now, 1⟩] }
  let s2 : RLState :=
    match recipient with
    | none => s1
    | some r =>
      let m :=
        if mapHas s1.messageHistory r then s1.messageHistory
        else mapSet s1.messageHistory r []
      { s1 with messageHistory := mapSet m r (mapGet m r ++ [⟨now, 1⟩]) }
  let oneHourAgo := now - 3600000
  { s2 with
    globalHistory := s2.globalHistory.filter (fun e => oneHourAgo < e.timestamp),
    messageHistory :=
      (s2.messageHistory.map
        (fun e => (e.1, e.2.filter (fun x => oneHourAgo < x.timestamp)))).filter
        (fun e => !e.2.isEmpty) }

/-- Result of `RateLimiter.queueMessage`: `{success: true}`,
`{success: false, error}`, or `{success: false, queued: true, waitTime}`. -/
inductive QMResult where
  | sent : QMResult
  | failed : QMResult
  | queued (waitTime : Int) : QMResult
deriving Repr, DecidableEq

/-- `RateLimiter.queueMessage(recipient, message, sendFn)`.  Re-checks
`canSend`; if allowed, invokes the send (outcome `sendOk`) and records on
success; otherwise appends a `QueuedItem` (with fresh identity `freshId`). -/
def queueMessage (cfg : RateConfig) (s : RLState) (recipient : Option String)
    (message : String) (sendOk : Bool) (freshId : Nat) (now : Int) :
    QMResult × RLState :=
  let res := canSend cfg s recipient now
  match res.1 with
  | .allow =>
    if sendOk then (.sent, recordSent res.2 recipient now)
    else (.failed, res.2)
  | .deny _ waitTime =>
    (.queued waitTime,
      { res.2 with
        queuedMessages := res.2.queuedMessages ++
          [⟨freshId, recipient, message, sendOk, now, waitTime⟩] })

/-- The synchronous partition loop at the start of
`RateLimiter.processQueue`: walks `queuedMessages` in order, re-evaluating
`canSend` per item (threading its state mutation), and splits the queue into
`toProcess` (allowed), `stillQueued` (denied, not stale) and the dropped
stale items (denied, older than one hour).  Returns
`(toProcess, stillQueued, dropped, state)`. -/
def drainPartition (cfg : RateConfig) (now : Int) :
    RLState → List QueuedItem →
    List QueuedItem × List QueuedItem × List QueuedItem × RLState
  | s, [] => ([], [], [], s)
  | s, item :: rest =>
    let res := canSend cfg s item.recipient now
    let rest2 := drainPartition cfg now res.2 rest
    match res.1 with
    | .allow => (item :: rest2.1, rest2.2.1, rest2.2.2.1, rest2.2.2.2)
    | .deny _ _ =>
      if 3600000 < now - item.addedAt then
        (rest2.1, rest2.2.1, item :: rest2.2.2.1, rest2.2.2.2)
      else
        (rest2.1, item :: rest2.2.1, rest2.2.2.1, rest2.2.2.2)

/-- The send loop at the end of `RateLimiter.processQueue`: for each allowed
item, invoke its stored send closure; on success `recordSent`, on a throw
only log.  Returns the final state and the `(item, succeeded)` log. -/
def sendPhase (now : Int) : RLState → List QueuedItem → RLState × List (QueuedItem × Bool)
  | s, [] => (s, [])
  | s, item :: rest =>
    if item.sendOk then
      let s1 := recordSent s item.recipient now
      let res := sendPhase now s1 rest
      (res.1, (item, true) :: res.2)
    else
      let res := sendPhase now s rest
      (res.1, (item, false) :: res.2)

/-- The synchronous prefix of `RateLimiter.processQueue()`: the early return
on an empty queue, the partition loop, and the assignment
`this.queuedMessages = stillQueued`.  All of this runs before the first
`await` of the invocation; the sends over `toProcess` happen afterwards.
Returns the state as it stands when the first send is awaited, together with
the `toProcess` list. -/
def processQueueSync (cfg : RateConfig) (s : RLState) (now : Int) :
    RLState × List QueuedItem :=
  if s.queuedMessages = [] then (s, [])
  else
    let part := drainPartition cfg now s s.queuedMessages
    ({ part.2.2.2 with queuedMessages := part.2.1 }, part.1)

/-- `RateLimiter.processQueue()`: the synchronous prefix followed by the send
loop over `toProcess`.  Returns the final state and the send log. -/
def processQueue (cfg : RateConfig) (s : RLState) (now : Int) :
    RLState × List (QueuedItem × Bool) :=
  let pre := processQueueSync cfg s now
  sendPhase now pre.1 pre.2

/-- A pending one-time job (`src/one-time-scheduler.js`): id, recipients,
message text and absolute fire time `sendAt`. -/
structure OneTimeMsg where
  id : String
  recipients : List String
  message : String
  sendAt : Int
deriving Repr, DecidableEq

/-- The partition loop of `OneTimeScheduler.checkPendingMessages`: one pass
over `pendingMessages` pushing due jobs (`msg.sendAt <= now`) onto `toSend`
and the rest onto `remaining`, preserving order. -/
def partitionDue (now : Int) : List OneTimeMsg → List OneTimeMsg × List OneTimeMsg
  | [] => ([], [])
  | msg :: rest =>
    let res := partitionDue now rest
    if msg.sendAt ≤ now then (msg :: res.1, res.2) else (res.1, msg :: res.2)

/-- The synchronous prefix of `OneTimeScheduler.checkPendingMessages`:
partition the pending set and execute `this.pendingMessages = remaining`.
Everything up to here runs before the first `await`; the due jobs are
dispatched afterwards.  Returns the new pending set and the dispatch list. -/
def checkPendingMessagesSync (pendingMessages : List OneTimeMsg) (now : Int) :
    List OneTimeMsg × List OneTimeMsg :=
  let res := partitionDue now pendingMessages
  (res.2, res.1)

/-- The recipient loop of `OneTimeScheduler.sendOneTimeMessage`: for each
recipient, `canSend`; on deny log a warning, count a failure and `continue`
(the message is not queued); on allow invoke the transport send (outcome
`sendOk recipient`), `recordSent` and count a success; a thrown send is
caught and counted as a failure.  Returns
`(successCount, failCount, final rate-limiter state)`. -/
def sendOneTimeLoop (cfg : RateConfig) (sendOk : String → Bool) (now : Int) :
    RLState → List String → Nat × Nat × RLState
  | s, [] => (0, 0, s)
  | s, r :: rest =>
    let res := canSend cfg s (some r) now
    match res.1 with
    | .deny _ _ =>
      let r2 := sendOneTimeLoop cfg sendOk now res.2 rest
      (r2.1, r2.2.1 + 1, r2.2.2)
    | .allow =>
      if sendOk r then
        let s2 := recordSent res.2 (some r) now
        let r2 := sendOneTimeLoop cfg sendOk now s2 rest
        (r2.1 + 1, r2.2.1, r2.2.2)
      else
        let r2 := sendOneTimeLoop cfg sendOk now res.2 rest
        (r2.1, r2.2.1 + 1, r2.2.2)

/-- Aggregate logged by a delivery batch: `{successCount, failCount, total}`. -/
structure BatchResult where
  successCount : Nat
  failCount : Nat
  total : Nat
deriving Repr, DecidableEq

/-- `OneTimeScheduler.sendOneTimeMessage(msg)`: runs the recipient loop and
logs the aggregate with `total = msg.recipients.length`. -/
def sendOneTimeMessage (cfg : RateConfig) (sendOk : String → Bool) (s : RLState)
    (msg : OneTimeMsg) (now : Int) : BatchResult × RLState :=
  let r2 := sendOneTimeLoop cfg sendOk now s msg.recipients
  (⟨r2.1, r2.2.1, msg.recipients.length⟩, r2.2.2)

/-- A schedule definition (`src/unnamed/part_000`, multi-recipient
`Scheduler`).  JavaScript falsy checks on missing fields are modelled by
`""` for a missing string field and `[]` for a missing recipient array. -/
structure ScheduleDef where
  id : String
  recipient : String
  recipients : List String
  message : String
  cron : String
  timezone : Option String
deriving Repr, DecidableEq

/-- The mutable fields of the `Scheduler` class: `jobs` (a `Map` from
schedule id to `{job, schedule}`, insertion-ordered), plus the observable
effects on cron timers.  A timer handle (`cron.schedule` result) is modelled
by a token drawn from `nextToken`; `stopped` and `destroyed` record the
`job.stop()` / `job.destroy()` calls issued so far. -/
structure SchedState where
  jobs : List (String × Nat × ScheduleDef)
  stopped : List Nat
  destroyed : List Nat
  nextToken : Nat
deriving Repr, DecidableEq

/-- `Map.has` on the scheduler's jobs map. -/
def jobsHas (m : List (String × Nat × ScheduleDef)) (k : String) : Bool :=
  m.any (fun e => e.1 = k)

/-- `Map.delete`: removes the (unique in a real `Map`) entry with the key;
on this list model, the first one. -/
def jobsDelete (m : List (String × Nat × ScheduleDef)) (k : String) :
    List (String × Nat × ScheduleDef) :=
  match m with
  | [] => []
  | e :: rest => if e.1 = k then rest else e :: jobsDelete rest k

/-- `Map.set` on the scheduler's jobs map: replace in place or append. -/
def jobsSet (m : List (String × Nat × ScheduleDef)) (k : String)
    (v : Nat × ScheduleDef) : List (String × Nat × ScheduleDef) :=
  match m with
  | [] => [(k, v)]
  | e :: rest => if e.1 = k then (k, v) :: rest else e :: jobsSet rest k v

/-- `Scheduler.removeSchedule(scheduleId)`: if present, `job.stop()`,
`job.destroy()`, and delete the map entry; otherwise a no-op. -/
def removeSchedule (st : SchedState) (scheduleId : String) : SchedState :=
  match st.jobs.find? (fun e => e.1 = scheduleId) with
  | some e =>
    { st with
      stopped := st.stopped ++ [e.2.1],
      destroyed := st.destroyed ++ [e.2.1],
      jobs := jobsDelete st.jobs scheduleId }
  | none => st

/-- `Scheduler.addSchedule(schedule)` (multi-recipient version): rejects on a
missing id / recipient(s) / message / cron or an invalid cron expression
(`cron.validate` is the external library call, passed in as `validate`);
otherwise removes any existing job for the id, then installs a fresh cron
timer and stores it in the map. -/
def addSchedule (validate : String → Bool) (st : SchedState)
    (schedule : ScheduleDef) : SchedState :=
  let hasRecipient := schedule.recipient ≠ "" ∨ schedule.recipients ≠ []
  if schedule.id = "" ∨ ¬hasRecipient ∨ schedule.message = "" ∨ schedule.cron = "" then
    st
  else if ¬ validate schedule.cron then
    st
  else
    let st1 := if jobsHas st.jobs schedule.id then removeSchedule st schedule.id else st
    { st1 with
      jobs := jobsSet st1.jobs schedule.id (st1.nextToken, schedule),
      nextToken := st1.nextToken + 1 }

/-- `Scheduler.getSchedules()`: the ids of the active jobs map, in order
(each returned record carries `jobData.schedule.id`). -/
def getSchedules (st : SchedState) : List String :=
  st.jobs.map (fun e => e.2.2.id)

/-- The recipient loop of `Scheduler.executeSchedule` (multi-recipient
version): per recipient, `canSend`; on deny hand off to
`rateLimiter.queueMessage` with a closure performing the send (fresh queue
identities drawn from `nid`) and count a failure; on allow send
(outcome `sendOk recipient`), `recordSent` and count a success; a thrown
send is caught and counted as a failure without aborting the loop. -/
def executeLoop (cfg : RateConfig) (sendOk : String → Bool) (message : String)
    (now : Int) : RLState → Nat → List String → Nat × Nat × RLState
  | s, _, [] => (0, 0, s)
  | s, nid, r :: rest =>
    let res := canSend cfg s (some r) now
    match res.1 with
    | .deny _ _ =>
      let q := queueMessage cfg res.2 (some r) message (sendOk r) nid now
      let r2 := executeLoop cfg sendOk message now q.2 (nid + 1) rest
      (r2.1, r2.2.1 + 1, r2.2.2)
    | .allow =>
      if sendOk r then
        let s2 := recordSent res.2 (some r) now
        let r2 := executeLoop cfg sendOk message now s2 nid rest
        (r2.1 + 1, r2.2.1, r2.2.2)
      else
        let r2 := executeLoop cfg sendOk message now res.2 nid rest
        (r2.1, r2.2.1 + 1, r2.2.2)

/-- `Scheduler.executeSchedule(schedule)` (multi-recipient version): runs the
recipient loop over `schedule.recipients || [schedule.recipient]` and logs
the aggregate `{successCount, failCount, total}`. -/
def executeSchedule (cfg : RateConfig) (sendOk : String → Bool) (s : RLState)
    (schedule : ScheduleDef) (baseId : Nat) (now : Int) : BatchResult × RLState :=
  let recipients :=
    if schedule.recipients ≠ [] then schedule.recipients else [schedule.recipient]
  let r2 := executeLoop cfg sendOk schedule.message now s baseId recipients
  (⟨r2.1, r2.2.1, recipients.length⟩, r2.2.2)

/-- The `config.reconnection` section of `config.js`.  The backoff multiplier
is a JavaScript double; at the values used (1.5 and small integer exponents)
double arithmetic is exact, so delays are modelled in `ℚ`. -/
structure ReconnConfig where
  maxRetries : Nat
  initialDelay : ℚ
  maxDelay : ℚ
  backoffMultiplier : ℚ
deriving Repr, DecidableEq

/-- The mutable fields of `BrowserManager` relevant to `restartBrowser`. -/
structure BMState where
  restartAttempts : Nat
  isRestarting : Bool
  lastRestartTime : Option Int
deriving Repr, DecidableEq

/-- The backoff delay computed by `BrowserManager.restartBrowser` for attempt
number `n` (the value of `this.restartAttempts` after the increment):
`Math.min(baseDelay * Math.pow(multiplier, attempts - 1), maxDelay)`. -/
def restartDelay (cfg : ReconnConfig) (n : Nat) : ℚ :=
  min (cfg.initialDelay * cfg.backoffMultiplier ^ (n - 1)) cfg.maxDelay

/-- `BrowserManager.restartBrowser(reason)`: `none` when skipped by the
in-flight latch (`isRestarting`) or the attempts cap; otherwise increments
the attempt counter, computes the backoff delay, waits, tears down and
reinitializes the client (outcome `initOk`), and releases the latch in the
`finally` block in all cases.  `lastRestartTime` is only set on success.
Returns the delay waited and the final state. -/
def restartBrowser (cfg : ReconnConfig) (s : BMState) (initOk : Bool) (now : Int) :
    Option (ℚ × BMState) :=
  if s.isRestarting then none
  else if cfg.maxRetries ≤ s.restartAttempts then none
  else
    let attempts := s.restartAttempts + 1
    let delay := restartDelay cfg attempts
    some (delay,
      { restartAttempts := attempts,
        isRestarting := false,
        lastRestartTime := if initOk then some now else s.lastRestartTime })

/-!  Theorems settling the claims. -/

/-- `recordSent` never touches the retry queue. -/
theorem recordSent_queuedMessages (s : RLState) (recipient : Option String) (now : Int) :
    (recordSent s recipient now).queuedMessages = s.queuedMessages := by
  unfold recordSent
  cases recipient <;> rfl

/-- The send loop never touches the retry queue. -/
theorem sendPhase_queuedMessages (now : Int) :
    ∀ (l : List QueuedItem) (s : RLState),
      (sendPhase now s l).1.queuedMessages = s.queuedMessages := by
  intro l
  induction l with
  | nil => intro s; rfl
  | cons item rest ih =>
    intro s
    unfold sendPhase
    cases hs : item.sendOk <;>
      simp [hs, ih, recordSent_queuedMessages]

/-- The send loop invokes each `toProcess` item's send action exactly once,
in order, with the outcome of its closure. -/
theorem sendPhase_log (now : Int) :
    ∀ (l : List QueuedItem) (s : RLState),
      (sendPhase now s l).2 = l.map (fun i => (i, i.sendOk)) := by
  intro l
  induction l with
  | nil => intro s; rfl
  | cons item rest ih =>
    intro s
    unfold sendPhase
    cases hs : item.sendOk <;> simp [hs, ih]

/-- Step equation for the partition loop when `canSend` allows the head. -/
theorem drainPartition_cons_allow {cfg : RateConfig} {now : Int} {s : RLState}
    {item : QueuedItem} {rest : List QueuedItem}
    (h : (canSend cfg s item.recipient now).1 = .allow) :
    drainPartition cfg now s (item :: rest) =
      (item :: (drainPartition cfg now (canSend cfg s item.recipient now).2 rest).1,
        (drainPartition cfg now (canSend cfg s item.recipient now).2 rest).2.1,
        (drainPartition cfg now (canSend cfg s item.recipient now).2 rest).2.2.1,
        (drainPartition cfg now (canSend cfg s item.recipient now).2 rest).2.2.2) := by
  simp only [drainPartition, h]

/-- Step equation for the partition loop when `canSend` denies a stale head. -/
theorem drainPartition_cons_deny_stale {cfg : RateConfig} {now : Int} {s : RLState}
    {item : QueuedItem} {rest : List QueuedItem} {reason : String} {wt : Int}
    (h : (canSend cfg s item.recipient now).1 = .deny reason wt)
    (hst : 3600000 < now - item.addedAt) :
    drainPartition cfg now s (item :: rest) =
      ((drainPartition cfg now (canSend cfg s item.recipient now).2 rest).1,
        (drainPartition cfg now (canSend cfg s item.recipient now).2 rest).2.1,
        item :: (drainPartition cfg now (canSend cfg s item.recipient now).2 rest).2.2.1,
        (drainPartition cfg now (canSend cfg s item.recipient now).2 rest).2.2.2) := by
  simp only [drainPartition, h, if_pos hst]

/-- Step equation for the partition loop when `canSend` denies a non-stale
head. -/
theorem drainPartition_cons_deny_fresh {cfg : RateConfig} {now : Int} {s : RLState}
    {item : QueuedItem} {rest : List QueuedItem} {reason : String} {wt : Int}
    (h : (canSend cfg s item.recipient now).1 = .deny reason wt)
    (hst : ¬ 3600000 < now - item.addedAt) :
    drainPartition cfg now s (item :: rest) =
      ((drainPartition cfg now (canSend cfg s item.recipient now).2 rest).1,
        item :: (drainPartition cfg now (canSend cfg s item.recipient now).2 rest).2.1,
        (drainPartition cfg now (canSend cfg s item.recipient now).2 rest).2.2.1,
        (drainPartition cfg now (canSend cfg s item.recipient now).2 rest).2.2.2) := by
  simp only [drainPartition, h, if_neg hst]

/-- The partition loop splits the queue into the three output lists: nothing
is duplicated or invented. -/
theorem drainPartition_perm (cfg : RateConfig) (now : Int) :
    ∀ (l : List QueuedItem) (s : RLState),
      ((drainPartition cfg now s l).1 ++ (drainPartition cfg now s l).2.1 ++
        (drainPartition cfg now s l).2.2.1).Perm l := by
  intro l
  induction l with
  | nil => intro s; simp [drainPartition]
  | cons item rest ih =>
    intro s
    cases h : (canSend cfg s item.recipient now).1 with
    | allow =>
      rw [drainPartition_cons_allow h]
      simpa using (ih _).cons item
    | deny reason wt =>
      by_cases hst : (3600000 : Int) < now - item.addedAt
      · rw [drainPartition_cons_deny_stale h hst]
        refine List.Perm.trans ?_ ((ih (canSend cfg s item.recipient now).2).cons item)
        simp only [List.append_assoc]
        exact ((List.perm_middle).append_left _).trans List.perm_middle
      · rw [drainPartition_cons_deny_fresh h hst]
        refine List.Perm.trans ?_ ((ih (canSend cfg s item.recipient now).2).cons item)
        simp only [List.append_assoc]
        exact List.perm_middle

/-- Only items older than one hour are dropped by the partition loop. -/
theorem drainPartition_dropped_stale (cfg : RateConfig) (now : Int) :
    ∀ (l : List QueuedItem) (s : RLState),
      ∀ i ∈ (drainPartition cfg now s l).2.2.1, 3600000 < now - i.addedAt := by
  intro l
  induction l with
  | nil => intro s i hi; simp [drainPartition] at hi
  | cons item rest ih =>
    intro s i
    cases h : (canSend cfg s item.recipient now).1 with
    | allow =>
      rw [drainPartition_cons_allow h]
      exact ih _ i
    | deny reason wt =>
      by_cases hst : (3600000 : Int) < now - item.addedAt
      · rw [drainPartition_cons_deny_stale h hst]
        intro hi
        rcases List.mem_cons.mp hi with hi | hi
        · subst hi; exact hst
        · exact ih _ i hi
      · rw [drainPartition_cons_deny_fresh h hst]
        exact ih _ i

/-- Items kept for the next cycle by the partition loop are at most one hour
old. -/
theorem drainPartition_kept_fresh (cfg : RateConfig) (now : Int) :
    ∀ (l : List QueuedItem) (s : RLState),
      ∀ i ∈ (drainPartition cfg now s l).2.1, now - i.addedAt ≤ 3600000 := by
  intro l
  induction l with
  | nil => intro s i hi; simp [drainPartition] at hi
  | cons item rest ih =>
    intro s i
    cases h : (canSend cfg s item.recipient now).1 with
    | allow =>
      rw [drainPartition_cons_allow h]
      exact ih _ i
    | deny reason wt =>
      by_cases hst : (3600000 : Int) < now - item.addedAt
      · rw [drainPartition_cons_deny_stale h hst]
        exact ih _ i
      · rw [drainPartition_cons_deny_fresh h hst]
        intro hi
        rcases List.mem_cons.mp hi with hi | hi
        · subst hi; omega
        · exact ih _ i hi

/-- C1 amended: one `processQueue` invocation partitions the queue into the
allowed items `p.1`, the kept items `p.2.1` and the dropped items `p.2.2.1`
(a permutation of the original queue); dropped items are exactly denied
items older than the 1-hour staleness bound, kept items are denied and not
stale, and the queue after the drain is exactly the kept items — so an item
admitted by `canSend` is removed from the queue before its send action runs
and stays removed even when that action throws (its attempt, recorded once
in the log, simply fails). -/
theorem C1_drain_removal (cfg : RateConfig) (s : RLState) (now : Int) :
    ((drainPartition cfg now s s.queuedMessages).1 ++
      (drainPartition cfg now s s.queuedMessages).2.1 ++
      (drainPartition cfg now s s.queuedMessages).2.2.1).Perm s.queuedMessages ∧
    (∀ i ∈ (drainPartition cfg now s s.queuedMessages).2.2.1,
      3600000 < now - i.addedAt) ∧
    (∀ i ∈ (drainPartition cfg now s s.queuedMessages).2.1,
      now - i.addedAt ≤ 3600000) ∧
    (processQueue cfg s now).1.queuedMessages =
      (drainPartition cfg now s s.queuedMessages).2.1 ∧
    (processQueue cfg s now).2 =
      (drainPartition cfg now s s.queuedMessages).1.map (fun i => (i, i.sendOk)) := by
  refine ⟨drainPartition_perm cfg now _ s, drainPartition_dropped_stale cfg now _ s,
    drainPartition_kept_fresh cfg now _ s, ?_, ?_⟩ <;>
    · unfold processQueue processQueueSync
      by_cases hq : s.queuedMessages = [] <;>
        simp [hq, drainPartition, sendPhase_queuedMessages, sendPhase_log]

/-- C1 witness: the amended characterization evaluated at a concrete drain
(one allowed item whose send throws, one stale denied item, one fresh denied
item). -/
theorem C1_drain_removal_witness :
    ((drainPartition ⟨20, 500, 1⟩ 4000000
        ⟨[("A", [⟨3990000, 1⟩])], [], [⟨0, some "Z", "m", false, 100000, 0⟩,
          ⟨1, some "A", "m", true, 0, 0⟩, ⟨2, some "A", "m", true, 3990000, 0⟩]⟩
        (⟨[("A", [⟨3990000, 1⟩])], [], [⟨0, some "Z", "m", false, 100000, 0⟩,
          ⟨1, some "A", "m", true, 0, 0⟩, ⟨2, some "A", "m", true, 3990000, 0⟩]⟩ :
          RLState).queuedMessages).1 ++
      (drainPartition ⟨20, 500, 1⟩ 4000000
        ⟨[("A", [⟨3990000, 1⟩])], [], [⟨0, some "Z", "m", false, 100000, 0⟩,
          ⟨1, some "A", "m", true, 0, 0⟩, ⟨2, some "A", "m", true, 3990000, 0⟩]⟩
        (⟨[("A", [⟨3990000, 1⟩])], [], [⟨0, some "Z", "m", false, 100000, 0⟩,
          ⟨1, some "A", "m", true, 0, 0⟩, ⟨2, some "A", "m", true, 3990000, 0⟩]⟩ :
          RLState).queuedMessages).2.1 ++
      (drainPartition ⟨20, 500, 1⟩ 4000000
        ⟨[("A", [⟨3990000, 1⟩])], [], [⟨0, some "Z", "m", false, 100000, 0⟩,
          ⟨1, some "A", "m", true, 0, 0⟩, ⟨2, some "A", "m", true, 3990000, 0⟩]⟩
        (⟨[("A", [⟨3990000, 1⟩])], [], [⟨0, some "Z", "m", false, 100000, 0⟩,
          ⟨1, some "A", "m", true, 0, 0⟩, ⟨2, some "A", "m", true, 3990000, 0⟩]⟩ :
          RLState).queuedMessages).2.2.1).Perm
      (⟨[("A", [⟨3990000, 1⟩])], [], [⟨0, some "Z", "m", false, 100000, 0⟩,
        ⟨1, some "A", "m", true, 0, 0⟩, ⟨2, some "A", "m", true, 3990000, 0⟩]⟩ :
        RLState).queuedMessages := by
  exact (C1_drain_removal ⟨20, 500, 1⟩
    ⟨[("A", [⟨3990000, 1⟩])], [], [⟨0, some "Z", "m", false, 100000, 0⟩,
      ⟨1, some "A", "m", true, 0, 0⟩, ⟨2, some "A", "m", true, 3990000, 0⟩]⟩ 4000000).1

/-- Every item the partition loop selects for sending was present in the
queue it walked. -/
theorem drainPartition_sent_mem (cfg : RateConfig) (now : Int)
    (l : List QueuedItem) (s : RLState) :
    ∀ i ∈ (drainPartition cfg now s l).1, i ∈ l := by
  intro i hi
  exact (drainPartition_perm cfg now l s).subset
    (List.mem_append.mpr (Or.inl (List.mem_append.mpr (Or.inl hi))))

/-- When the queue's items have pairwise distinct identities, no identity
selected for sending is also left behind in the queue. -/
theorem drainPartition_sent_kept_disjoint (cfg : RateConfig) (now : Int)
    (l : List QueuedItem) (s : RLState)
    (hnd : (l.map QueuedItem.id).Nodup) :
    ∀ i ∈ (drainPartition cfg now s l).1,
      ∀ j ∈ (drainPartition cfg now s l).2.1, i.id ≠ j.id := by
  have hperm := (drainPartition_perm cfg now l s).map QueuedItem.id
  have hnd2 := (hperm.nodup_iff).mpr hnd
  simp only [List.map_append, List.nodup_append] at hnd2
  intro i hi j hj heq
  exact hnd2.1.2.2 (List.mem_map_of_mem QueuedItem.id hi)
    (heq ▸ List.mem_map_of_mem QueuedItem.id hj)

/-- C3 amended: `processQueue` has no single-flight guard (see the
counterexample), but each queued item's send action is still invoked at most
once across overlapping invocations, because an invocation synchronously
removes the items it will send from the shared queue before its first
`await`.  Precisely: if the first invocation starts from a queue with
pairwise-distinct item identities, and a second invocation at any later
instant sees the queue the first one left behind plus any freshly enqueued
items (`extra`, with identities new to the original queue), then no item the
second invocation selects for sending has the identity of an item the first
invocation is sending. -/
theorem C3_at_most_once (cfg : RateConfig) (s : RLState) (now1 now2 : Int)
    (extra : List QueuedItem) (s2 : RLState)
    (hnd : (s.queuedMessages.map QueuedItem.id).Nodup)
    (hextra : ∀ i ∈ extra, i.id ∉ s.queuedMessages.map QueuedItem.id)
    (hs2 : s2.queuedMessages = (processQueueSync cfg s now1).1.queuedMessages ++ extra) :
    ∀ j ∈ (processQueueSync cfg s2 now2).2,
      j.id ∉ (processQueueSync cfg s now1).2.map QueuedItem.id := by
  intro j hj hjid
  obtain ⟨i, hi, hiid⟩ := List.mem_map.mp hjid
  by_cases hq : s.queuedMessages = []
  · simp [processQueueSync, hq] at hi
  · have hp1 : (processQueueSync cfg s now1).2 =
        (drainPartition cfg now1 s s.queuedMessages).1 := by
      simp [processQueueSync, hq]
    have hp1q : (processQueueSync cfg s now1).1.queuedMessages =
        (drainPartition cfg now1 s s.queuedMessages).2.1 := by
      simp [processQueueSync, hq]
    rw [hp1] at hi
    -- where does j live in the second invocation's queue?
    have hjmem : j ∈ s2.queuedMessages := by
      by_cases hq2 : s2.queuedMessages = []
      · simp [processQueueSync, hq2] at hj
      · have : (processQueueSync cfg s2 now2).2 =
            (drainPartition cfg now2 s2 s2.queuedMessages).1 := by
          simp [processQueueSync, hq2]
        rw [this] at hj
        exact drainPartition_sent_mem cfg now2 _ s2 j hj
    rw [hs2, hp1q] at hjmem
    rcases List.mem_append.mp hjmem with hjk | hjx
    · -- j was left behind by the first invocation: identities disjoint
      exact drainPartition_sent_kept_disjoint cfg now1 s.queuedMessages s hnd i hi j hjk hiid
    · -- j was freshly enqueued: its identity is new to the original queue
      exact hextra j hjx
        (hiid ▸ List.mem_map_of_mem QueuedItem.id (drainPartition_sent_mem cfg now1 _ s i hi))

/-- C3 witness: in the concrete overlapping-drain scenario of the
counterexample (second invocation entered while the first is suspended
sending item Y; no fresh enqueues), no item selected by the second
invocation carries an identity the first invocation is sending. -/
theorem C3_at_most_once_witness :
    (processQueueSync ⟨20, 500, 1⟩
        ⟨[("A", [⟨90000, 1⟩]), ("B", [])], [],
          [⟨0, some "A", "m", true, 0, 0⟩]⟩ 160000).2.filter
      (fun j => j.id ∈ (processQueueSync ⟨20, 500, 1⟩
        ⟨[("A", [⟨90000, 1⟩])], [],
          [⟨0, some "A", "m", true, 0, 0⟩, ⟨1, some "B", "m", true, 0, 0⟩]⟩ 100000).2.map
        QueuedItem.id) = [] := by
  have h := C3_at_most_once ⟨20, 500, 1⟩
    ⟨[("A", [⟨90000, 1⟩])], [], [⟨0, some "A", "m", true, 0, 0⟩, ⟨1, some "B", "m", true, 0, 0⟩]⟩
    100000 160000 []
    ⟨[("A", [⟨90000, 1⟩]), ("B", [])], [], [⟨0, some "A", "m", true, 0, 0⟩]⟩
    (by decide) (by decide) (by decide)
  rw [List.filter_eq_nil_iff]
  intro j hj
  simpa using h j hj

/-- `canSend` never touches the retry queue. -/
theorem canSend_queuedMessages (cfg : RateConfig) (s : RLState)
    (recipient : Option String) (now : Int) :
    (canSend cfg s recipient now).2.queuedMessages = s.queuedMessages := by
  simp only [canSend]
  repeat' split <;> try rfl

/-- `canSend` leaves the global history pruned to the last minute — a
sublist of what was there; it never adds samples. -/
theorem canSend_globalHistory (cfg : RateConfig) (s : RLState)
    (recipient : Option String) (now : Int) :
    (canSend cfg s recipient now).2.globalHistory =
      s.globalHistory.filter (fun e => now - 60000 < e.timestamp) := by
  simp only [canSend]
  repeat' split <;> try rfl

/-- Inserting an empty history for a key the map does not have changes no
key's lookup. -/
theorem mapGet_mapSet_not_has (m : List (String × List Sample)) (k : String)
    (h : mapHas m k = false) (r : String) :
    mapGet (mapSet m k []) r = mapGet m r := by
  induction m with
  | nil =>
    by_cases hrk : r = k
    · simp [mapSet, mapGet, List.find?, hrk]
    · have hkr : ¬ k = r := fun hh => hrk hh.symm
      simp [mapSet, mapGet, List.find?, hrk, hkr]
  | cons e rest ih =>
    simp only [mapHas, List.any_cons, Bool.or_eq_false_iff,
      decide_eq_false_iff_not] at h
    obtain ⟨hek, hrest⟩ := h
    have hset : mapSet (e :: rest) k [] = e :: mapSet rest k [] := by
      simp [mapSet, hek]
    have ih2 := ih hrest
    rw [hset]
    by_cases her : e.1 = r
    · simp [mapGet, List.find?, her]
    · simp [mapGet, List.find?, her] at ih2 ⊢
      exact ih2

/-- `canSend` records no sample in any per-recipient window: every
recipient's history reads the same after it. -/
theorem canSend_mapGet (cfg : RateConfig) (s : RLState)
    (recipient : Option String) (now : Int) (r' : String) :
    mapGet (canSend cfg s recipient now).2.messageHistory r' =
      mapGet s.messageHistory r' := by
  simp only [canSend]
  repeat' split <;> try rfl
  all_goals simp_all [mapGet_mapSet_not_has]

/-- C10: when `queueMessage`'s internal `canSend` re-check allows but the
supplied send action throws, the result is the failure outcome
`{success: false, error}`; nothing is appended to the retry queue, no global
sample survives that was not already there (the global history is only
pruned), and every recipient window reads unchanged — the delivery is
abandoned, not retried. -/
theorem C10_failed_send_abandoned (cfg : RateConfig) (s : RLState)
    (recipient : Option String) (message : String) (freshId : Nat) (now : Int)
    (hallow : (canSend cfg s recipient now).1 = .allow) :
    (queueMessage cfg s recipient message false freshId now).1 = .failed ∧
    (queueMessage cfg s recipient message false freshId now).2.queuedMessages =
      s.queuedMessages ∧
    (queueMessage cfg s recipient message false freshId now).2.globalHistory.Sublist
      s.globalHistory ∧
    ∀ r, mapGet (queueMessage cfg s recipient message false freshId now).2.messageHistory r =
      mapGet s.messageHistory r := by
  have hq : queueMessage cfg s recipient message false freshId now =
      (.failed, (canSend cfg s recipient now).2) := by
    simp [queueMessage, hallow]
  rw [hq]
  refine ⟨rfl, canSend_queuedMessages cfg s recipient now, ?_,
    canSend_mapGet cfg s recipient now⟩
  rw [canSend_globalHistory]
  exact List.filter_sublist _

/-- C10 witness: the failure outcome at a concrete allowed-but-throwing
send. -/
theorem C10_failed_send_abandoned_witness :
    (queueMessage ⟨20, 500, 10⟩ ⟨[], [⟨0, 1⟩], []⟩ (some "A") "m" false 7 1000).1 =
        .failed ∧
      (queueMessage ⟨20, 500, 10⟩ ⟨[], [⟨0, 1⟩], []⟩ (some "A") "m" false 7 1000).2.queuedMessages =
        (⟨[], [⟨0, 1⟩], []⟩ : RLState).queuedMessages ∧
      (queueMessage ⟨20, 500, 10⟩ ⟨[], [⟨0, 1⟩], []⟩ (some "A") "m" false 7 1000).2.globalHistory.Sublist
        (⟨[], [⟨0, 1⟩], []⟩ : RLState).globalHistory ∧
      mapGet (queueMessage ⟨20, 500, 10⟩ ⟨[], [⟨0, 1⟩], []⟩
          (some "A") "m" false 7 1000).2.messageHistory "A" =
        mapGet (⟨[], [⟨0, 1⟩], []⟩ : RLState).messageHistory "A" := by
  have h := C10_failed_send_abandoned ⟨20, 500, 10⟩ ⟨[], [⟨0, 1⟩], []⟩
    (some "A") "m" 7 1000 (by decide)
  exact ⟨h.1, h.2.1, h.2.2.1, h.2.2.2 "A"⟩

/-- The head of a chronologically ordered sample list minimizes the
timestamp. -/
theorem head?_sorted_min {l : List Sample} {o : Sample}
    (hs : l.Pairwise (fun a b => a.timestamp ≤ b.timestamp))
    (ho : l.head? = some o) :
    ∀ e ∈ l, o.timestamp ≤ e.timestamp := by
  cases l with
  | nil => simp at ho
  | cons x t =>
    simp only [List.head?_cons, Option.some.injEq] at ho
    subst ho
    intro e he
    rcases List.mem_cons.mp he with he | he
    · exact he ▸ le_refl _
    · exact (List.pairwise_cons.mp hs).1 e he

/-- In a chronologically ordered sample list, the first element satisfying a
predicate minimizes the timestamp among those satisfying it. -/
theorem find?_sorted_min {p : Sample → Bool} {l : List Sample} {o : Sample}
    (hs : l.Pairwise (fun a b => a.timestamp ≤ b.timestamp))
    (hf : l.find? p = some o) :
    p o = true ∧ ∀ e ∈ l, p e = true → o.timestamp ≤ e.timestamp := by
  induction l with
  | nil => simp at hf
  | cons x t ih =>
    by_cases hx : p x = true
    · rw [List.find?_cons_of_pos _ hx] at hf
      simp only [Option.some.injEq] at hf
      subst hf
      refine ⟨hx, ?_⟩
      intro e he _
      rcases List.mem_cons.mp he with he | he
      · exact he ▸ le_refl _
      · exact (List.pairwise_cons.mp hs).1 e he
    · rw [List.find?_cons_of_neg _ hx] at hf
      obtain ⟨hpo, hmin⟩ := ih (List.pairwise_cons.mp hs).2 hf
      refine ⟨hpo, ?_⟩
      intro e he hpe
      rcases List.mem_cons.mp he with he | he
      · exact absurd (he ▸ hpe) hx
      · exact hmin e he hpe

/-- An absent recipient key reads as the empty history. -/
theorem mapGet_eq_nil_of_not_has {m : List (String × List Sample)} {k : String}
    (h : mapHas m k = false) : mapGet m k = [] := by
  simp only [mapHas, List.any_eq_false] at h
  simp only [mapGet]
  cases hf : m.find? (fun e => e.1 = k) with
  | none => rfl
  | some e =>
    have hm := List.mem_of_find?_eq_some hf
    have hp := List.find?_some hf
    exact absurd hp (by simpa using h e hm)

/-- C7: whichever check denies, `waitSeconds` is
`ceil((windowMs - (now - oldest.timestamp)) / 1000)` computed from the
oldest sample still inside the violated check's window — the head of the
minute-pruned global history for the per-minute check (window 60000 ms),
the head of its hour-filtered form for the per-hour check (window
3600000 ms), and the first in-window sample of the recipient's history for
the per-recipient check (window 60000 ms).  Under chronological order each
of these lies in its window and minimizes the timestamp there. -/
theorem C7_deny_wait_formula (cfg : RateConfig) (s : RLState) (now : Int) :
    (∀ (recipient : Option String) (o : Sample),
      s.globalHistory.Pairwise (fun a b => a.timestamp ≤ b.timestamp) →
      (s.globalHistory.filter (fun e => now - 60000 < e.timestamp)).head? = some o →
      cfg.messagesPerMinute ≤
        sumCounts (s.globalHistory.filter (fun e => now - 60000 < e.timestamp)) →
      (canSend cfg s recipient now).1 =
        .deny "Global per-minute limit exceeded"
          (mathCeilDiv (60000 - (now - o.timestamp)) 1000) ∧
      now - 60000 < o.timestamp ∧
      ∀ e ∈ s.globalHistory.filter (fun e => now - 60000 < e.timestamp),
        o.timestamp ≤ e.timestamp) ∧
    (∀ (recipient : Option String) (o : Sample),
      s.globalHistory.Pairwise (fun a b => a.timestamp ≤ b.timestamp) →
      ((s.globalHistory.filter (fun e => now - 60000 < e.timestamp)).filter
        (fun e => now - 3600000 < e.timestamp)).head? = some o →
      sumCounts (s.globalHistory.filter (fun e => now - 60000 < e.timestamp)) <
        cfg.messagesPerMinute →
      cfg.messagesPerHour ≤
        sumCounts ((s.globalHistory.filter (fun e => now - 60000 < e.timestamp)).filter
          (fun e => now - 3600000 < e.timestamp)) →
      (canSend cfg s recipient now).1 =
        .deny "Global per-hour limit exceeded"
          (mathCeilDiv (3600000 - (now - o.timestamp)) 1000) ∧
      now - 3600000 < o.timestamp ∧
      ∀ e ∈ (s.globalHistory.filter (fun e => now - 60000 < e.timestamp)).filter
          (fun e => now - 3600000 < e.timestamp),
        o.timestamp ≤ e.timestamp) ∧
    (∀ (r : String) (o : Sample),
      (mapGet s.messageHistory r).Pairwise (fun a b => a.timestamp ≤ b.timestamp) →
      (mapGet s.messageHistory r).find? (fun e => now - 60000 < e.timestamp) = some o →
      sumCounts (s.globalHistory.filter (fun e => now - 60000 < e.timestamp)) <
        cfg.messagesPerMinute →
      sumCounts ((s.globalHistory.filter (fun e => now - 60000 < e.timestamp)).filter
        (fun e => now - 3600000 < e.timestamp)) < cfg.messagesPerHour →
      cfg.perRecipientLimit ≤
        sumCounts ((mapGet s.messageHistory r).filter
          (fun e => now - 60000 < e.timestamp)) →
      (canSend cfg s (some r) now).1 =
        .deny "Per-recipient limit exceeded"
          (mathCeilDiv (60000 - (now - o.timestamp)) 1000) ∧
      now - 60000 < o.timestamp ∧
      ∀ e ∈ (mapGet s.messageHistory r).filter (fun e => now - 60000 < e.timestamp),
        o.timestamp ≤ e.timestamp) := by
  refine ⟨?_, ?_, ?_⟩
  · intro recipient o hsorted hhead hcnt
    cases hfl : s.globalHistory.filter (fun e => now - 60000 < e.timestamp) with
    | nil => rw [hfl] at hhead; simp at hhead
    | cons x t =>
      rw [hfl] at hhead
      simp only [List.head?_cons, Option.some.injEq] at hhead
      subst hhead
      have hx : now - 60000 < x.timestamp := by
        have hxm : x ∈ s.globalHistory.filter (fun e => now - 60000 < e.timestamp) := by
          rw [hfl]; exact List.mem_cons_self x t
        simpa using List.of_mem_filter hxm
      have hpw := hsorted.filter (fun e => decide (now - 60000 < e.timestamp))
      rw [hfl] at hpw
      refine ⟨?_, hx, ?_⟩
      · simp only [canSend]
        rw [if_pos (by rw [hfl] at hcnt ⊢; exact hcnt)]
        simp [hfl]
      · intro e he
        rcases List.mem_cons.mp he with he | he
        · exact he ▸ le_refl _
        · exact (List.pairwise_cons.mp hpw).1 e he
  · intro recipient o hsorted hhead hmin hcnt
    cases hfl : (s.globalHistory.filter (fun e => now - 60000 < e.timestamp)).filter
        (fun e => now - 3600000 < e.timestamp) with
    | nil => rw [hfl] at hhead; simp at hhead
    | cons x t =>
      rw [hfl] at hhead
      simp only [List.head?_cons, Option.some.injEq] at hhead
      subst hhead
      have hx : now - 3600000 < x.timestamp := by
        have hxm : x ∈ (s.globalHistory.filter (fun e => now - 60000 < e.timestamp)).filter
            (fun e => now - 3600000 < e.timestamp) := by
          rw [hfl]; exact List.mem_cons_self x t
        simpa using List.of_mem_filter hxm
      have hpw := (hsorted.filter (fun e => decide (now - 60000 < e.timestamp))).filter
        (fun e => decide (now - 3600000 < e.timestamp))
      rw [hfl] at hpw
      refine ⟨?_, hx, ?_⟩
      · simp only [canSend]
        rw [if_neg (not_le.mpr hmin)]
        rw [if_pos (by rw [hfl] at hcnt ⊢; exact hcnt)]
        simp [hfl]
      · intro e he
        rcases List.mem_cons.mp he with he | he
        · exact he ▸ le_refl _
        · exact (List.pairwise_cons.mp hpw).1 e he
  · intro r o hsorted hfind hmin hhour hcnt
    obtain ⟨hpo, hominl⟩ := find?_sorted_min hsorted hfind
    have hoin : now - 60000 < o.timestamp := by simpa using hpo
    refine ⟨?_, hoin, ?_⟩
    · simp only [canSend]
      rw [if_neg (not_le.mpr hmin), if_neg (not_le.mpr hhour)]
      by_cases hhas : mapHas s.messageHistory r = true
      · simp only [hhas, if_true]
        rw [if_pos hcnt, hfind]
      · have hfalse : mapHas s.messageHistory r = false := by
          simpa using hhas
        have hrw : mapGet (mapSet s.messageHistory r []) r =
            mapGet s.messageHistory r := mapGet_mapSet_not_has s.messageHistory r hfalse r
        simp only [hfalse, Bool.false_eq_true, if_false, hrw]
        rw [if_pos hcnt, hfind]
    · intro e he
      exact hominl e (List.mem_filter.mp he).1 (List.mem_filter.mp he).2

/-- C7 witness: with a per-minute ceiling of 2, three `recordSent` calls with
no recipient (at 0ms, 1000ms, 2000ms) followed by `canSend()` at 5000ms
yield Deny with `waitSeconds = ceil((60000 - 5000) / 1000) = 55`, sixty
seconds minus the whole seconds elapsed since the first of the three
samples, rounded up. -/
theorem C7_deny_wait_formula_witness :
    (canSend ⟨2, 500, 10⟩
        (recordSent (recordSent (recordSent ⟨[], [], []⟩ none 0) none 1000) none 2000)
        none 5000).1 =
      .deny "Global per-minute limit exceeded"
        (mathCeilDiv (60000 - (5000 - (0 : Int))) 1000) ∧
    mathCeilDiv (60000 - (5000 - (0 : Int))) 1000 = 55 := by
  refine ⟨?_, by decide⟩
  exact ((C7_deny_wait_formula ⟨2, 500, 10⟩
    (recordSent (recordSent (recordSent ⟨[], [], []⟩ none 0) none 1000) none 2000)
    5000).1 none ⟨0, 1⟩ (by decide) (by decide) (by decide)).1

/-- C2, failing input: with a per-hour ceiling of 3 and three sends recorded
two minutes before the check, the samples are inside the hour window (sum 3,
meeting the ceiling) while the last-minute count is 0 (under the per-minute
ceiling of 2) — yet `canSend` returns Allow, because its destructive
per-minute prune (`this.globalHistory = this.globalHistory.filter(...)`) has
already erased every sample older than one minute before the per-hour check
sums its window; the final conjunct shows the hour history is gone from the
state.  The claim (and the spec invariant that each check prunes only to its
own window's age) requires Deny with the per-hour reason here. -/
theorem C2_hour_check_ineffective :
    let cfg : RateConfig := ⟨2, 3, 10⟩
    let s : RLState := ⟨[], [⟨0, 1⟩, ⟨0, 1⟩, ⟨0, 1⟩], []⟩
    let now : Int := 120000
    sumCounts (s.globalHistory.filter (fun e => now - 3600000 < e.timestamp)) = 3 ∧
    cfg.messagesPerHour ≤ 3 ∧
    sumCounts (s.globalHistory.filter (fun e => now - 60000 < e.timestamp)) <
      cfg.messagesPerMinute ∧
    (canSend cfg s none now).1 = .allow ∧
    (canSend cfg s none now).2.globalHistory = [] := by
  decide

/-- C1, counterexample: a queued item whose send action throws
(`sendOk = false`), aged well under one hour, is admitted by `canSend`,
removed from the queue, attempted once (the log records the failed attempt),
and the resulting queue is empty — the item is lost, not kept for the next
cycle as the claim states. -/
theorem C1_counterexample :
    let cfg : RateConfig := ⟨20, 500, 10⟩
    let item : QueuedItem := ⟨0, some "Z", "m", false, 0, 0⟩
    let s : RLState := ⟨[], [], [item]⟩
    let res := processQueue cfg s 1000
    (1000 : Int) - item.addedAt ≤ 3600000 ∧
    res.2 = [(item, false)] ∧
    res.1.queuedMessages = [] := by
  decide

/-- C3, counterexample: `processQueue` has no single-flight guard.  With a
per-recipient ceiling of 1, item X (recipient A, one fresh sample) is denied
and item Y allowed at the first invocation, so the first invocation is
suspended inside Y's send with X still queued; a second invocation entered
at that point (state `p1.1`), once A's sample has aged out, selects X for
sending (`p2.2 = [itemX]`) — it performs work rather than skipping. -/
theorem C3_counterexample :
    let cfg : RateConfig := ⟨20, 500, 1⟩
    let itemX : QueuedItem := ⟨0, some "A", "m", true, 0, 0⟩
    let itemY : QueuedItem := ⟨1, some "B", "m", true, 0, 0⟩
    let s : RLState := ⟨[("A", [⟨90000, 1⟩])], [], [itemX, itemY]⟩
    let p1 := processQueueSync cfg s 100000
    let p2 := processQueueSync cfg p1.1 160000
    p1.2 = [itemY] ∧ p1.1.queuedMessages = [itemX] ∧ p2.2 = [itemX] := by
  decide

/-- C4, failing input: a due one-time job with one recipient B that `canSend`
denies (per-recipient ceiling 1, one fresh sample for B).  The delivery
batch counts B as failed and finishes with an empty retry queue: the denied
message is never handed to `queueMessage`, so it is dropped, not delivered
late as the claim states. -/
theorem C4_denied_recipient_dropped :
    let cfg : RateConfig := ⟨20, 500, 1⟩
    let s : RLState := ⟨[("B", [⟨90000, 1⟩])], [], []⟩
    let msg : OneTimeMsg := ⟨"j1", ["B"], "hello", 0⟩
    let res := sendOneTimeMessage cfg (fun _ => true) s msg 100000
    (canSend cfg s (some "B") 100000).1 = .deny "Per-recipient limit exceeded" 50 ∧
    res.1 = ⟨0, 1, 1⟩ ∧
    res.2.queuedMessages = [] := by
  decide

/-- The one-pass partition of the pending set computes the filters of the
due and not-yet-due jobs, in order. -/
theorem partitionDue_eq (now : Int) :
    ∀ l : List OneTimeMsg,
      partitionDue now l =
        (l.filter (fun m => m.sendAt ≤ now), l.filter (fun m => now < m.sendAt)) := by
  intro l
  induction l with
  | nil => rfl
  | cons msg rest ih =>
    by_cases h : msg.sendAt ≤ now
    · have h2 : ¬ now < msg.sendAt := not_lt.mpr h
      simp [partitionDue, ih, h, h2]
    · have h2 : now < msg.sendAt := not_le.mp h
      simp [partitionDue, ih, h, h2]

/-- C6: `checkPendingMessages` partitions the pending set in a single pass
into due (`sendAt ≤ now`) and remaining jobs, installs the remaining jobs as
the new pending set (this happens before any due job is dispatched — the
dispatch loop runs on the returned `toSend` list afterwards), dispatches
every due job exactly as many times as it occurs in the pending set (so
exactly once for a job present once), keeps every non-due job, and leaves
no due job in the pending snapshot taken right after the partition. -/
theorem C6_partition_replace_before_dispatch (pending : List OneTimeMsg) (now : Int) :
    (checkPendingMessagesSync pending now).2 =
      pending.filter (fun m => m.sendAt ≤ now) ∧
    (checkPendingMessagesSync pending now).1 =
      pending.filter (fun m => now < m.sendAt) ∧
    (∀ m : OneTimeMsg, m.sendAt ≤ now →
      (checkPendingMessagesSync pending now).2.count m = pending.count m ∧
      m ∉ (checkPendingMessagesSync pending now).1) ∧
    (∀ m ∈ pending, now < m.sendAt → m ∈ (checkPendingMessagesSync pending now).1) := by
  have hpart := partitionDue_eq now pending
  refine ⟨by simp [checkPendingMessagesSync, hpart], by simp [checkPendingMessagesSync, hpart],
    ?_, ?_⟩
  · intro m hm
    constructor
    · simp [checkPendingMessagesSync, hpart, List.count_filter, hm]
    · simp only [checkPendingMessagesSync, hpart]
      intro hmem
      exact absurd hm (not_le.mpr (by simpa using (List.mem_filter.mp hmem).2))
  · intro m hm hdue
    simp only [checkPendingMessagesSync, hpart]
    exact List.mem_filter.mpr ⟨hm, by simpa using hdue⟩

/-- C6 witness: the partition applied to a concrete pending set with one due
and one future job, and the due job's count in the dispatch list. -/
theorem C6_partition_replace_before_dispatch_witness :
    (checkPendingMessagesSync [⟨"a", ["r"], "x", 100⟩, ⟨"b", ["r"], "y", 99999⟩] 1000).2 =
      ([⟨"a", ["r"], "x", 100⟩, ⟨"b", ["r"], "y", 99999⟩] : List OneTimeMsg).filter
        (fun m => m.sendAt ≤ 1000) ∧
    (checkPendingMessagesSync [⟨"a", ["r"], "x", 100⟩, ⟨"b", ["r"], "y", 99999⟩] 1000).1 =
      ([⟨"a", ["r"], "x", 100⟩, ⟨"b", ["r"], "y", 99999⟩] : List OneTimeMsg).filter
        (fun m => 1000 < m.sendAt) ∧
    (checkPendingMessagesSync [⟨"a", ["r"], "x", 100⟩, ⟨"b", ["r"], "y", 99999⟩]
        1000).2.count ⟨"a", ["r"], "x", 100⟩ =
      ([⟨"a", ["r"], "x", 100⟩, ⟨"b", ["r"], "y", 99999⟩] : List OneTimeMsg).count
        ⟨"a", ["r"], "x", 100⟩ ∧
    (⟨"b", ["r"], "y", 99999⟩ : OneTimeMsg) ∈
      (checkPendingMessagesSync [⟨"a", ["r"], "x", 100⟩, ⟨"b", ["r"], "y", 99999⟩]
        1000).1 := by
  have h := C6_partition_replace_before_dispatch
    [⟨"a", ["r"], "x", 100⟩, ⟨"b", ["r"], "y", 99999⟩] 1000
  exact ⟨h.1, h.2.1,
    (h.2.2.1 ⟨"a", ["r"], "x", 100⟩ (by decide)).1,
    h.2.2.2 ⟨"b", ["r"], "y", 99999⟩ (by decide) (by decide)⟩

/-- Step equation for the delivery loop when `canSend` denies the head
recipient. -/
theorem executeLoop_cons_deny {cfg : RateConfig} {sendOk : String → Bool}
    {message : String} {now : Int} {s : RLState} {nid : Nat} {r : String}
    {rest : List String} {reason : String} {wt : Int}
    (h : (canSend cfg s (some r) now).1 = .deny reason wt) :
    executeLoop cfg sendOk message now s nid (r :: rest) =
      ((executeLoop cfg sendOk message now
          (queueMessage cfg (canSend cfg s (some r) now).2 (some r) message
            (sendOk r) nid now).2 (nid + 1) rest).1,
        (executeLoop cfg sendOk message now
          (queueMessage cfg (canSend cfg s (some r) now).2 (some r) message
            (sendOk r) nid now).2 (nid + 1) rest).2.1 + 1,
        (executeLoop cfg sendOk message now
          (queueMessage cfg (canSend cfg s (some r) now).2 (some r) message
            (sendOk r) nid now).2 (nid + 1) rest).2.2) := by
  simp only [executeLoop, h]

/-- Step equation for the delivery loop when `canSend` allows the head
recipient and its send succeeds. -/
theorem executeLoop_cons_allow_ok {cfg : RateConfig} {sendOk : String → Bool}
    {message : String} {now : Int} {s : RLState} {nid : Nat} {r : String}
    {rest : List String}
    (h : (canSend cfg s (some r) now).1 = .allow) (hs : sendOk r = true) :
    executeLoop cfg sendOk message now s nid (r :: rest) =
      ((executeLoop cfg sendOk message now
          (recordSent (canSend cfg s (some r) now).2 (some r) now) nid rest).1 + 1,
        (executeLoop cfg sendOk message now
          (recordSent (canSend cfg s (some r) now).2 (some r) now) nid rest).2.1,
        (executeLoop cfg sendOk message now
          (recordSent (canSend cfg s (some r) now).2 (some r) now) nid rest).2.2) := by
  simp only [executeLoop, h, hs, if_true]

/-- Step equation for the delivery loop when `canSend` allows the head
recipient and its send throws. -/
theorem executeLoop_cons_allow_fail {cfg : RateConfig} {sendOk : String → Bool}
    {message : String} {now : Int} {s : RLState} {nid : Nat} {r : String}
    {rest : List String}
    (h : (canSend cfg s (some r) now).1 = .allow) (hs : sendOk r = false) :
    executeLoop cfg sendOk message now s nid (r :: rest) =
      ((executeLoop cfg sendOk message now
          (canSend cfg s (some r) now).2 nid rest).1,
        (executeLoop cfg sendOk message now
          (canSend cfg s (some r) now).2 nid rest).2.1 + 1,
        (executeLoop cfg sendOk message now
          (canSend cfg s (some r) now).2 nid rest).2.2) := by
  simp only [executeLoop, h, hs]
  rfl

/-- Every recipient of a batch is accounted for as exactly one success or
one failure: a denial or a thrown send never aborts the rest of the loop. -/
theorem executeLoop_total (cfg : RateConfig) (sendOk : String → Bool)
    (message : String) (now : Int) :
    ∀ (recipients : List String) (s : RLState) (nid : Nat),
      (executeLoop cfg sendOk message now s nid recipients).1 +
        (executeLoop cfg sendOk message now s nid recipients).2.1 =
        recipients.length := by
  intro recipients
  induction recipients with
  | nil => intro s nid; rfl
  | cons r rest ih =>
    intro s nid
    cases h : (canSend cfg s (some r) now).1 with
    | allow =>
      cases hs : sendOk r
      · rw [executeLoop_cons_allow_fail h hs]
        have := ih (canSend cfg s (some r) now).2 nid
        simp only [List.length_cons]
        omega
      · rw [executeLoop_cons_allow_ok h hs]
        have := ih (recordSent (canSend cfg s (some r) now).2 (some r) now) nid
        simp only [List.length_cons]
        omega
    | deny reason wt =>
      rw [executeLoop_cons_deny h]
      have := ih (queueMessage cfg (canSend cfg s (some r) now).2 (some r) message
        (sendOk r) nid now).2 (nid + 1)
      simp only [List.length_cons]
      omega

/-- C5: a scheduled batch over `[A, B, C]` where the admission controller
allows A and C (no history) and denies B (per-recipient ceiling 1, one
fresh sample): A's and C's messages are sent directly and recorded in their
windows, B's message is handed to `queueMessage` and sits in the retry
queue, and the aggregate is `successCount = 2, failCount = 1, total = 3`;
and in general every recipient of a batch contributes exactly one success
or one failure, so one recipient's send failure never aborts the remaining
recipients. -/
theorem C5_executeSchedule_batch :
    ((executeSchedule ⟨20, 500, 1⟩ (fun _ => true) ⟨[("B", [⟨90000, 1⟩])], [], []⟩
        ⟨"s1", "", ["A", "B", "C"], "hello", "0 8 * * *", none⟩ 0 100000).1 =
      ⟨2, 1, 3⟩ ∧
     (executeSchedule ⟨20, 500, 1⟩ (fun _ => true) ⟨[("B", [⟨90000, 1⟩])], [], []⟩
        ⟨"s1", "", ["A", "B", "C"], "hello", "0 8 * * *", none⟩ 0 100000).2.queuedMessages.map
        (fun i => i.recipient) = [some "B"] ∧
     mapGet (executeSchedule ⟨20, 500, 1⟩ (fun _ => true) ⟨[("B", [⟨90000, 1⟩])], [], []⟩
        ⟨"s1", "", ["A", "B", "C"], "hello", "0 8 * * *", none⟩ 0 100000).2.messageHistory
        "A" = [⟨100000, 1⟩] ∧
     mapGet (executeSchedule ⟨20, 500, 1⟩ (fun _ => true) ⟨[("B", [⟨90000, 1⟩])], [], []⟩
        ⟨"s1", "", ["A", "B", "C"], "hello", "0 8 * * *", none⟩ 0 100000).2.messageHistory
        "C" = [⟨100000, 1⟩]) ∧
    ∀ (cfg : RateConfig) (sendOk : String → Bool) (message : String) (now : Int)
      (s : RLState) (nid : Nat) (recipients : List String),
      (executeLoop cfg sendOk message now s nid recipients).1 +
        (executeLoop cfg sendOk message now s nid recipients).2.1 =
        recipients.length := by
  exact ⟨by decide, fun cfg sendOk message now s nid recipients =>
    executeLoop_total cfg sendOk message now recipients s nid⟩

/-- C8: with the default reconnection configuration (`maxRetries = 10`,
`initialDelay = 5000`, `maxDelay = 60000`, `backoffMultiplier = 1.5`), a
restart attempt that is not skipped by the in-flight latch or the
max-attempts cap waits `min(5000 * 1.5^(n-1), 60000)` milliseconds for
attempt `n` and releases the latch whether the reinitialization succeeds or
fails; the delays of attempts 1..6 round down to
5000, 7500, 11250, 16875, 25312, 37968 ms, and no delay ever exceeds the
60000 ms cap. -/
theorem C8_backoff (s : BMState) (initOk : Bool) (now : Int)
    (hlatch : s.isRestarting = false) (hcap : s.restartAttempts < 10) :
    restartBrowser ⟨10, 5000, 60000, 3 / 2⟩ s initOk now =
      some (restartDelay ⟨10, 5000, 60000, 3 / 2⟩ (s.restartAttempts + 1),
        ⟨s.restartAttempts + 1, false,
          if initOk then some now else s.lastRestartTime⟩) ∧
    restartDelay ⟨10, 5000, 60000, 3 / 2⟩ (s.restartAttempts + 1) =
      min ((5000 : ℚ) * (3 / 2) ^ s.restartAttempts) 60000 ∧
    ([1, 2, 3, 4, 5, 6].map
        (fun n => ⌊restartDelay ⟨10, 5000, 60000, 3 / 2⟩ n⌋)) =
      [5000, 7500, 11250, 16875, 25312, 37968] ∧
    ∀ n : Nat, restartDelay ⟨10, 5000, 60000, 3 / 2⟩ n ≤ 60000 := by
  refine ⟨?_, by simp [restartDelay], ?_, fun n => min_le_right _ _⟩
  · have hc : ¬ (10 : Nat) ≤ s.restartAttempts := Nat.not_le.mpr hcap
    simp [restartBrowser, hlatch, hc]
  · simp only [List.map_cons, List.map_nil, restartDelay]
    norm_num

/-- C8 witness: the first restart attempt from a fresh manager waits the
base delay of 5000 ms and leaves the latch released. -/
theorem C8_backoff_witness :
    restartBrowser ⟨10, 5000, 60000, 3 / 2⟩ ⟨0, false, none⟩ true 42 =
      some (restartDelay ⟨10, 5000, 60000, 3 / 2⟩ (0 + 1),
        ⟨0 + 1, false, if true then some 42 else none⟩) := by
  exact (C8_backoff ⟨0, false, none⟩ true 42 rfl (by decide)).1

/-- `removeSchedule` never changes the timer-token counter. -/
theorem removeSchedule_nextToken (st : SchedState) (i : String) :
    (removeSchedule st i).nextToken = st.nextToken := by
  unfold removeSchedule
  split <;> rfl

/-- After `Map.set`, looking the key up finds exactly the new value. -/
theorem jobsSet_find_self (m : List (String × Nat × ScheduleDef)) (k : String)
    (v : Nat × ScheduleDef) :
    (jobsSet m k v).find? (fun e => e.1 = k) = some (k, v) := by
  induction m with
  | nil => simp [jobsSet, List.find?]
  | cons e rest ih =>
    by_cases h : e.1 = k
    · simp [jobsSet, h, List.find?]
    · simp [jobsSet, h, List.find?, ih]

/-- A successful lookup means `Map.has`. -/
theorem jobsHas_of_find_some {m : List (String × Nat × ScheduleDef)} {k : String}
    {x : String × Nat × ScheduleDef}
    (h : m.find? (fun e => e.1 = k) = some x) : jobsHas m k = true := by
  have hm := List.mem_of_find?_eq_some h
  have hp := List.find?_some h
  simp only [jobsHas, List.any_eq_true]
  exact ⟨x, hm, hp⟩

/-- `Map.set` leaves exactly one entry for the key if the map is key-unique,
and at least one in general: the entry count for the key becomes
`max (old count) 1`. -/
theorem jobsSet_filter_length (m : List (String × Nat × ScheduleDef)) (k : String)
    (v : Nat × ScheduleDef) :
    ((jobsSet m k v).filter (fun e => e.1 = k)).length =
      max ((m.filter (fun e => e.1 = k)).length) 1 := by
  induction m with
  | nil => simp [jobsSet]
  | cons e rest ih =>
    by_cases h : e.1 = k
    · simp only [jobsSet, if_pos h, List.filter_cons]
      simp [h]
    · simp only [jobsSet, if_neg h, List.filter_cons]
      simp [h, ih]

/-- `Map.delete` removes one entry for the key. -/
theorem jobsDelete_filter_length (m : List (String × Nat × ScheduleDef)) (k : String) :
    ((jobsDelete m k).filter (fun e => e.1 = k)).length =
      (m.filter (fun e => e.1 = k)).length - 1 := by
  induction m with
  | nil => simp [jobsDelete]
  | cons e rest ih =>
    by_cases h : e.1 = k
    · simp only [jobsDelete, if_pos h, List.filter_cons]
      simp [h]
    · simp only [jobsDelete, if_neg h, List.filter_cons]
      simp [h, ih]

/-- An absent key has no entries. -/
theorem jobs_filter_length_of_not_has (m : List (String × Nat × ScheduleDef))
    (k : String) (h : jobsHas m k = false) :
    (m.filter (fun e => e.1 = k)).length = 0 := by
  simp only [jobsHas, List.any_eq_false] at h
  simp only [List.length_eq_zero, List.filter_eq_nil_iff]
  exact h

/-- A present key has at least one entry. -/
theorem jobs_filter_length_of_has (m : List (String × Nat × ScheduleDef))
    (k : String) (h : jobsHas m k = true) :
    1 ≤ (m.filter (fun e => e.1 = k)).length := by
  simp only [jobsHas, List.any_eq_true] at h
  obtain ⟨x, hx, hpx⟩ := h
  have : x ∈ m.filter (fun e => e.1 = k) := List.mem_filter.mpr ⟨hx, hpx⟩
  exact List.length_pos.mpr (List.ne_nil_of_mem this)

/-- Members survive `Map.delete`. -/
theorem mem_of_mem_jobsDelete {m : List (String × Nat × ScheduleDef)} {k : String}
    {e : String × Nat × ScheduleDef} (h : e ∈ jobsDelete m k) : e ∈ m := by
  induction m with
  | nil => simp [jobsDelete] at h
  | cons x rest ih =>
    by_cases hx : x.1 = k
    · simp only [jobsDelete, if_pos hx] at h
      exact List.mem_cons_of_mem x h
    · simp only [jobsDelete, if_neg hx] at h
      rcases List.mem_cons.mp h with h | h
      · exact h ▸ List.mem_cons_self x rest
      · exact List.mem_cons_of_mem x (ih h)

/-- A member of `Map.set` is an old member or the new entry. -/
theorem mem_of_mem_jobsSet {m : List (String × Nat × ScheduleDef)} {k : String}
    {v : Nat × ScheduleDef} {e : String × Nat × ScheduleDef}
    (h : e ∈ jobsSet m k v) : e ∈ m ∨ e = (k, v) := by
  induction m with
  | nil => exact Or.inr (by simpa [jobsSet] using h)
  | cons x rest ih =>
    by_cases hx : x.1 = k
    · simp only [jobsSet, if_pos hx] at h
      rcases List.mem_cons.mp h with h | h
      · exact Or.inr h
      · exact Or.inl (List.mem_cons_of_mem x h)
    · simp only [jobsSet, if_neg hx] at h
      rcases List.mem_cons.mp h with h | h
      · exact Or.inl (h ▸ List.mem_cons_self x rest)
      · rcases ih h with h | h
        · exact Or.inl (List.mem_cons_of_mem x h)
        · exact Or.inr h

/-- Deleting an absent key is a no-op. -/
theorem jobsDelete_eq_of_forall (m : List (String × Nat × ScheduleDef)) (k : String)
    (h : ∀ e ∈ m, ¬ e.1 = k) : jobsDelete m k = m := by
  induction m with
  | nil => rfl
  | cons e rest ih =>
    have he := h e (List.mem_cons_self e rest)
    simp only [jobsDelete, if_neg he]
    rw [ih (fun x hx => h x (List.mem_cons_of_mem e hx))]

/-- `removeSchedule` always leaves `jobs = Map.delete jobs id` (a no-op when
the id is absent). -/
theorem removeSchedule_jobs (st : SchedState) (i : String) :
    (removeSchedule st i).jobs = jobsDelete st.jobs i := by
  unfold removeSchedule
  cases hf : st.jobs.find? (fun e => e.1 = i) with
  | some x => rfl
  | none =>
    have hnone := List.find?_eq_none.mp hf
    exact (jobsDelete_eq_of_forall _ _ (by simpa using hnone)).symm

/-- `removeSchedule` on a present id records the stop of its timer token. -/
theorem removeSchedule_stopped {st : SchedState} {i : String}
    {x : String × Nat × ScheduleDef}
    (h : st.jobs.find? (fun e => e.1 = i) = some x) :
    (removeSchedule st i).stopped = st.stopped ++ [x.2.1] := by
  simp only [removeSchedule, h]

/-- `removeSchedule` on a present id records the disposal of its timer
token. -/
theorem removeSchedule_destroyed {st : SchedState} {i : String}
    {x : String × Nat × ScheduleDef}
    (h : st.jobs.find? (fun e => e.1 = i) = some x) :
    (removeSchedule st i).destroyed = st.destroyed ++ [x.2.1] := by
  simp only [removeSchedule, h]

/-- `addSchedule` on a valid definition: any old job for the id is removed,
then a fresh timer is installed under the id. -/
theorem addSchedule_valid_eq (validate : String → Bool) (st : SchedState)
    (sch : ScheduleDef)
    (hid : sch.id ≠ "") (hrec : sch.recipient ≠ "" ∨ sch.recipients ≠ [])
    (hmsg : sch.message ≠ "") (hcron : sch.cron ≠ "")
    (hval : validate sch.cron = true) :
    addSchedule validate st sch =
      { (if jobsHas st.jobs sch.id then removeSchedule st sch.id else st) with
        jobs := jobsSet
          (if jobsHas st.jobs sch.id then removeSchedule st sch.id else st).jobs sch.id
          ((if jobsHas st.jobs sch.id then removeSchedule st sch.id else st).nextToken,
            sch),
        nextToken :=
          (if jobsHas st.jobs sch.id then removeSchedule st sch.id else st).nextToken +
            1 } := by
  simp only [addSchedule]
  rw [if_neg (by push_neg; exact ⟨hid, hrec, hmsg, hcron⟩), if_neg (by simp [hval])]

/-- The pre-insertion state of a valid `addSchedule` keeps the token
counter. -/
theorem addSchedule_pre_nextToken (st : SchedState) (i : String) :
    (if jobsHas st.jobs i then removeSchedule st i else st).nextToken = st.nextToken := by
  split <;> simp [removeSchedule_nextToken]

/-- One valid `addSchedule`: exactly one entry for the id remains, it holds
the fresh token and the given definition, the token counter advances, the
stop/dispose log is that of the removal step, and key-well-formedness of
the map is preserved. -/
theorem addSchedule_key_once (validate : String → Bool) (st : SchedState)
    (sch : ScheduleDef)
    (hid : sch.id ≠ "") (hrec : sch.recipient ≠ "" ∨ sch.recipients ≠ [])
    (hmsg : sch.message ≠ "") (hcron : sch.cron ≠ "")
    (hval : validate sch.cron = true)
    (hkey : (st.jobs.filter (fun e => e.1 = sch.id)).length ≤ 1) :
    ((addSchedule validate st sch).jobs.filter (fun e => e.1 = sch.id)).length = 1 ∧
    (addSchedule validate st sch).jobs.find? (fun e => e.1 = sch.id) =
      some (sch.id, st.nextToken, sch) ∧
    (addSchedule validate st sch).nextToken = st.nextToken + 1 ∧
    (addSchedule validate st sch).stopped =
      (if jobsHas st.jobs sch.id then removeSchedule st sch.id else st).stopped ∧
    (addSchedule validate st sch).destroyed =
      (if jobsHas st.jobs sch.id then removeSchedule st sch.id else st).destroyed ∧
    ((∀ e ∈ st.jobs, e.2.2.id = e.1) →
      ∀ e ∈ (addSchedule validate st sch).jobs, e.2.2.id = e.1) := by
  rw [addSchedule_valid_eq validate st sch hid hrec hmsg hcron hval]
  have hpre : (if jobsHas st.jobs sch.id then removeSchedule st sch.id else st).jobs.filter
      (fun e => e.1 = sch.id) = [] := by
    by_cases hhas : jobsHas st.jobs sch.id
    · rw [if_pos hhas]
      have h1 := jobs_filter_length_of_has st.jobs sch.id hhas
      have h2 := jobsDelete_filter_length st.jobs sch.id
      rw [removeSchedule_jobs]
      rw [← List.length_eq_zero]
      omega
    · rw [if_neg hhas]
      rw [← List.length_eq_zero]
      exact jobs_filter_length_of_not_has st.jobs sch.id (by simpa using hhas)
  refine ⟨?_, ?_, ?_, rfl, rfl, ?_⟩
  · rw [jobsSet_filter_length, hpre]
    rfl
  · rw [jobsSet_find_self, addSchedule_pre_nextToken]
  · rw [addSchedule_pre_nextToken]
  · intro hwf e he
    rcases mem_of_mem_jobsSet he with he | he
    · have he2 : e ∈ st.jobs := by
        by_cases hhas : jobsHas st.jobs sch.id
        · rw [if_pos hhas, removeSchedule_jobs] at he
          exact mem_of_mem_jobsDelete he
        · rwa [if_neg hhas] at he
      exact hwf e he2
    · rw [he]

/-- In a key-well-formed jobs map, counting an id among the stored schedule
ids counts the entries under that key. -/
theorem count_map_id_eq_filter_length (jobs : List (String × Nat × ScheduleDef))
    (i : String) (hwf : ∀ e ∈ jobs, e.2.2.id = e.1) :
    (jobs.map (fun e => e.2.2.id)).count i =
      (jobs.filter (fun e => e.1 = i)).length := by
  induction jobs with
  | nil => rfl
  | cons e rest ih =>
    have he := hwf e (List.mem_cons_self e rest)
    have ih2 := ih (fun x hx => hwf x (List.mem_cons_of_mem e hx))
    by_cases h : e.1 = i
    · simp [List.count_cons, List.filter_cons, he, h, ih2]
    · simp [List.count_cons, List.filter_cons, he, h, ih2]

/-- C9: `addSchedule` is idempotent in the schedule id.  For a valid
definition (all fields present, cron accepted by the validator), calling it
twice from a key-unique, key-well-formed state leaves exactly one jobs-map
entry for the id — holding the second call's fresh timer — and
`getSchedules()` lists the id exactly once; the first call installed the
timer token `st.nextToken`, and the second call stopped and disposed that
earlier timer before installing its own. -/
theorem C9_addSchedule_idempotent (validate : String → Bool) (st : SchedState)
    (sch : ScheduleDef)
    (hid : sch.id ≠ "") (hrec : sch.recipient ≠ "" ∨ sch.recipients ≠ [])
    (hmsg : sch.message ≠ "") (hcron : sch.cron ≠ "")
    (hval : validate sch.cron = true)
    (hkey : (st.jobs.filter (fun e => e.1 = sch.id)).length ≤ 1)
    (hwf : ∀ e ∈ st.jobs, e.2.2.id = e.1) :
    ((addSchedule validate (addSchedule validate st sch) sch).jobs.filter
      (fun e => e.1 = sch.id)).length = 1 ∧
    (getSchedules (addSchedule validate (addSchedule validate st sch) sch)).count
      sch.id = 1 ∧
    (addSchedule validate st sch).jobs.find? (fun e => e.1 = sch.id) =
      some (sch.id, st.nextToken, sch) ∧
    (addSchedule validate (addSchedule validate st sch) sch).jobs.find?
      (fun e => e.1 = sch.id) = some (sch.id, st.nextToken + 1, sch) ∧
    st.nextToken ∈ (addSchedule validate (addSchedule validate st sch) sch).stopped ∧
    st.nextToken ∈ (addSchedule validate (addSchedule validate st sch) sch).destroyed := by
  obtain ⟨hA1, hF1, hN1, _, _, hW1⟩ :=
    addSchedule_key_once validate st sch hid hrec hmsg hcron hval hkey
  obtain ⟨hA2, hF2, hN2, hS2, hD2, hW2⟩ :=
    addSchedule_key_once validate (addSchedule validate st sch) sch hid hrec hmsg hcron
      hval (le_of_eq hA1)
  have hhas1 : jobsHas (addSchedule validate st sch).jobs sch.id = true :=
    jobsHas_of_find_some hF1
  refine ⟨hA2, ?_, hF1, by rw [hF2, hN1], ?_, ?_⟩
  · rw [getSchedules, count_map_id_eq_filter_length _ _ (hW2 (hW1 hwf))]
    exact hA2
  · rw [hS2, if_pos hhas1, removeSchedule_stopped hF1]
    simp
  · rw [hD2, if_pos hhas1, removeSchedule_destroyed hF1]
    simp

/-- C9 witness: registering the same valid schedule twice from an empty
scheduler leaves exactly one jobs-map entry for its id. -/
theorem C9_addSchedule_idempotent_witness :
    ((addSchedule (fun _ => true)
        (addSchedule (fun _ => true) ⟨[], [], [], 0⟩
          ⟨"daily-1", "111@c.us", [], "hi", "0 8 * * *", none⟩)
        ⟨"daily-1", "111@c.us", [], "hi", "0 8 * * *", none⟩).jobs.filter
      (fun e => e.1 = "daily-1")).length = 1 ∧
    (0 : Nat) ∈ (addSchedule (fun _ => true)
        (addSchedule (fun _ => true) ⟨[], [], [], 0⟩
          ⟨"daily-1", "111@c.us", [], "hi", "0 8 * * *", none⟩)
        ⟨"daily-1", "111@c.us", [], "hi", "0 8 * * *", none⟩).stopped := by
  have hmain := C9_addSchedule_idempotent (fun _ => true) ⟨[], [], [], 0⟩
    ⟨"daily-1", "111@c.us", [], "hi", "0 8 * * *", none⟩
    (by decide) (Or.inl (by decide)) (by decide) (by decide) rfl
    (by simp) (by simp)
  exact ⟨hmain.1, hmain.2.2.2.2.1⟩

end WhatsappBot
